import Mathlib

/-
Verification of openclaw-warden (src/warden.js) against its specification.

The JavaScript source is shallowly embedded: each subprocess launch becomes an
event in a trace, exit codes of external commands are supplied by an
environment record, and file contents are explicit optional strings.  The
definitions below are direct translations of the corresponding functions in
src/warden.js; line references are given in the doc comments.
-/

namespace Warden

/-! ## Heartbeat model (src/warden.js, `runHeartbeatOnce`, lines 825-898)

Each call to `execShell` made by the heartbeat cycle is recorded as one event
in a trace, in source order.  Exit codes of the external commands are supplied
by `HbEnv`: `checkCode i` / `probeCode i` are the exit codes of the check and
probe commands on attempt `i` (0-based), `sendCode j` the exit code of the
`j`-th send invocation, `restartCode` / `notifyCode` those of the restart and
notify commands.  Log lines that the source emits on the decision path are
kept as `warn…` / `info…` events so that the trace mirrors the control flow.
-/

/-- One observable step of a heartbeat cycle: command executions and the
log lines the source emits on its decision path. -/
inductive HbEvent where
  | warnNoCheck
  | sendExec
  | warnSendFailed
  | checkExec
  | warnProbeNoCmd
  | probeExec
  | sleepWait (secs : Nat)
  | infoHealthy
  | warnExhausted
  | restartExec
  | warnRestartFailed
  | notifyExec
  | warnNotifyFailed
  deriving DecidableEq, Repr

/-- `heartbeat.agentProbe` sub-object of the configuration. -/
structure AgentProbe where
  enabled : Bool
  command : Option String

/-- The `heartbeat` section of the configuration as read by
`runHeartbeatOnce` (lines 826-836).  `Option` models an absent (or, under
JavaScript truthiness, empty) field. -/
structure HeartbeatCfg where
  sendCommand : Option String
  checkCommand : Option String
  agentProbe : Option AgentProbe
  notifyOnRestart : Bool
  notifyCommand : Option String
  restartCommand : Option String
  waitSeconds : Option (List Nat)

/-- Exit codes of the external commands the heartbeat launches. -/
structure HbEnv where
  checkCode : Nat → Nat
  probeCode : Nat → Nat
  sendCode : Nat → Nat
  restartCode : Nat
  notifyCode : Nat

/-- `Boolean(hb.agentProbe?.enabled)` (line 829). -/
def probeEnabled (hb : HeartbeatCfg) : Bool :=
  (hb.agentProbe.map AgentProbe.enabled).getD false

/-- `hb.agentProbe?.command` (line 830). -/
def probeCommand (hb : HeartbeatCfg) : Option String :=
  hb.agentProbe.bind AgentProbe.command

/-- `Array.isArray(hb.waitSeconds) ? hb.waitSeconds : [30, 40, 50]`
(lines 834-836). -/
def waitSecondsOf (hb : HeartbeatCfg) : List Nat :=
  hb.waitSeconds.getD [30, 40, 50]

/-- The `send` closure (lines 844-851): run the send command, log a warning
when it exits non-zero. -/
def sendStep (env : HbEnv) (j : Nat) : List HbEvent :=
  HbEvent.sendExec :: (if env.sendCode j ≠ 0 then [HbEvent.warnSendFailed] else [])

/-- The `check` closure (lines 853-866): run the check command; on exit 0,
when the agent probe is enabled run the probe command (warning and bare
success when the probe has no configured command).  Returns the health
verdict of the attempt together with the events it produced. -/
def checkStep (hb : HeartbeatCfg) (env : HbEnv) (i : Nat) : Bool × List HbEvent :=
  if env.checkCode i ≠ 0 then (false, [HbEvent.checkExec])
  else if probeEnabled hb = false then (true, [HbEvent.checkExec])
  else
    match probeCommand hb with
    | none => (true, [HbEvent.checkExec, HbEvent.warnProbeNoCmd])
    | some _ => (decide (env.probeCode i = 0), [HbEvent.checkExec, HbEvent.probeExec])

/-- Health verdict of attempt `i` of a cycle. -/
def attemptHealthy (hb : HeartbeatCfg) (env : HbEnv) (i : Nat) : Bool :=
  (checkStep hb env i).1

/-- The retry loop of `runHeartbeatOnce` (lines 871-883): iterate the wait
sequence, sleeping then checking; on health stop with the attempt index;
after a failed attempt that is not the last, re-run the send step when a
send command is configured.  Returns `some i` when attempt `i` was healthy,
`none` when every entry was exhausted, together with the trace. -/
def hbLoop (hb : HeartbeatCfg) (env : HbEnv) : Nat → List Nat → Option Nat × List HbEvent
  | _, [] => (none, [])
  | i, w :: rest =>
    let cs := checkStep hb env i
    if cs.1 then
      (some i, HbEvent.sleepWait w :: cs.2 ++ [HbEvent.infoHealthy])
    else
      let resend :=
        if rest.isEmpty then []
        else if hb.sendCommand.isSome then sendStep env (i + 1) else []
      let tl := hbLoop hb env (i + 1) rest
      (tl.1, HbEvent.sleepWait w :: cs.2 ++ resend ++ tl.2)

/-- `runHeartbeatOnce` (lines 825-898): warn and return when no check command
is configured; otherwise run the optional initial send, then the retry loop;
on exhaustion run the restart command once and, when `notifyOnRestart` is set
and a notify command is configured, the notify command once. -/
def runHeartbeatOnce (hb : HeartbeatCfg) (env : HbEnv) : List HbEvent :=
  match hb.checkCommand with
  | none => [HbEvent.warnNoCheck]
  | some _ =>
    let initSend := if hb.sendCommand.isSome then sendStep env 0 else []
    let lr := hbLoop hb env 0 (waitSecondsOf hb)
    match lr.1 with
    | some _ => initSend ++ lr.2
    | none =>
      initSend ++ lr.2 ++ [HbEvent.warnExhausted, HbEvent.restartExec] ++
        (if env.restartCode ≠ 0 then [HbEvent.warnRestartFailed] else []) ++
        (if hb.notifyOnRestart && hb.notifyCommand.isSome then
          HbEvent.notifyExec :: (if env.notifyCode ≠ 0 then [HbEvent.warnNotifyFailed] else [])
        else [])

/-- Number of occurrences of event `e` in a trace. -/
def countE (e : HbEvent) (t : List HbEvent) : Nat :=
  t.count e

/-- Recognizer for sleep events. -/
def isSleepEvent : HbEvent → Bool
  | HbEvent.sleepWait _ => true
  | _ => false

/-! ## Interval loop and reentrancy guard (`runHeartbeatLoop`, lines 900-915)

JavaScript is single-threaded, so the `tick` callback observes and flips the
`running` flag atomically with respect to other ticks.  A run of the loop is
a sequence of `fire` events (the interval timer invoking `tick`) and
`finish` events (an in-flight `runHeartbeatOnce` resolving, which triggers
the `finally` block).  `active` counts cycles currently executing,
`started` / `skipped` instrument how each timer fire was handled.  The state
has no queue field, exactly as the source keeps none: a skipped fire leaves
no pending work behind. -/

/-- Instrumented state of `runHeartbeatLoop`: the `running` guard plus
counters derived from it. -/
structure LoopState where
  running : Bool
  active : Nat
  started : Nat
  skipped : Nat
  deriving DecidableEq, Repr

/-- Initial state: `let running = false` (line 903). -/
def loopInit : LoopState :=
  { running := false, active := 0, started := 0, skipped := 0 }

/-- Events observed by the loop: a timer fire, or completion of the awaited
cycle. -/
inductive LoopEvent where
  | fire
  | finish
  deriving DecidableEq, Repr

/-- One step of the loop (lines 904-912): `if (running) return;` skips the
fire; otherwise `running = true` and a cycle starts; the `finally` block of
a finishing cycle resets `running = false`. -/
def loopStep (s : LoopState) : LoopEvent → LoopState
  | LoopEvent.fire =>
    if s.running then { s with skipped := s.skipped + 1 }
    else { running := true, active := s.active + 1, started := s.started + 1,
           skipped := s.skipped }
  | LoopEvent.finish =>
    if s.running then { s with running := false, active := s.active - 1 }
    else s

/-- State after processing a sequence of loop events from the initial state. -/
def loopRun (evs : List LoopEvent) : LoopState :=
  evs.foldl loopStep loopInit

/-- Number of timer fires in an event sequence. -/
def countFires (evs : List LoopEvent) : Nat :=
  evs.count LoopEvent.fire

/-! ## Error propagation wiring (C9)

`runHeartbeatLoop`'s tick (lines 904-912) wraps the cycle in
`try {...} finally { running = false }` with **no catch clause**: the result
of the awaited cycle, error included, propagates to the caller while the
guard is reset.  The debounced push inside `watchConfig` (lines 809-816) is
wrapped in `try {...} catch (err) { logError(...) }`: its error is consumed.
`main().catch` (lines 1008-1011) logs the error and calls `process.exit(1)`. -/

/-- Result of one tick of `runHeartbeatLoop`: the cycle outcome as seen by
the awaiter, and the value of the `running` guard afterwards.  The
`try`/`finally` re-raises the error; only the guard is reset. -/
def runHeartbeatTick (cycle : Except String Unit) : Except String Unit × Bool :=
  (cycle, false)

/-- Result of the debounced push callback in `watchConfig`: errors are caught
and logged, so the callback itself always resolves. -/
def watchPushHandler (_push : Except String Unit) : Except String Unit :=
  Except.ok ()

/-- Exit code of the process as determined by `main().catch`: a rejected
`main` promise exits with code 1. -/
def mainExitCode (r : Except String Unit) : Nat :=
  match r with
  | Except.ok _ => 0
  | Except.error _ => 1

/-! ## Substring search (JavaScript `String.prototype.includes`) -/

/-- `s.includes(pat)` over character lists: some suffix of `s` starts with
`pat`. -/
def containsSub (pat : List Char) : List Char → Bool
  | [] => pat.isEmpty
  | c :: rest => pat.isPrefixOf (c :: rest) || containsSub pat rest

/-- `line.includes(file)` on strings (used by `gitCommitIfChanged`,
line 450). -/
def strIncludes (s sub : String) : Bool :=
  containsSub sub.data s.data

/-! ## Config validation (`validateConfig`, lines 652-684)

`JSON.parse` and the compiled Ajv validator are external collaborators; a
`Validator` supplies their behaviour: `parse` either fails with the message
of the thrown exception or yields the parsed document (represented
abstractly by a string), and `ajvErrors schema doc` is the complete
`validate.errors` list produced with `allErrors: true`. -/

/-- One entry of Ajv's `validate.errors`.  An empty string models a missing
(JavaScript-falsy) field, matching the `||` fallbacks in the source. -/
structure AjvError where
  instancePath : String
  schemaPath : String
  message : String
  deriving DecidableEq, Repr

/-- Formatting of one validation error (lines 676-679):
`- ${e.instancePath || e.schemaPath || ""} ${e.message || "invalid"}`. -/
def formatAjvError (e : AjvError) : String :=
  let loc := if e.instancePath ≠ "" then e.instancePath
             else if e.schemaPath ≠ "" then e.schemaPath else ""
  let msg := if e.message ≠ "" then e.message else "invalid"
  "- " ++ loc ++ " " ++ msg

/-- External parsing and schema-checking collaborators. -/
structure Validator where
  parse : String → Except String String
  ajvErrors : String → String → List AjvError

/-- Contents of the three files the sync engine touches; `none` means the
file does not exist (or cannot be read). -/
structure SyncState where
  repoContent : Option String
  liveContent : Option String
  schemaContent : Option String
  deriving DecidableEq, Repr

/-- Failure modes of validate / pull / push, one constructor per distinct
`throw` site in the source. -/
inductive SyncErr where
  | repoReadFailed
  | invalidJson (msg : String)
  | schemaNotFound
  | schemaFailed (detail : List String)
  | liveMissing
  deriving DecidableEq, Repr

/-- `validateConfig` (lines 652-684): read the managed copy, `JSON.parse` it
(throwing `Invalid JSON: …` on failure, before the schema file is touched),
load the schema (throwing if the schema file is missing), and run the
compiled validator; on violations throw `Schema validation failed` carrying
every formatted error. -/
def validateConfig (v : Validator) (st : SyncState) : Except SyncErr Unit :=
  match st.repoContent with
  | none => Except.error SyncErr.repoReadFailed
  | some raw =>
    match v.parse raw with
    | Except.error m => Except.error (SyncErr.invalidJson m)
    | Except.ok doc =>
      match st.schemaContent with
      | none => Except.error SyncErr.schemaNotFound
      | some sch =>
        match v.ajvErrors sch doc with
        | [] => Except.ok ()
        | errs => Except.error (SyncErr.schemaFailed (errs.map formatAjvError))

/-! ## Git pipeline (`ensureGitRepo` lines 429-439, `gitCommitIfChanged`
lines 441-465) -/

/-- Exit codes and output of the git subprocesses, plus whether `.git`
already exists in the workspace.  The stdout of `git status --porcelain` is
kept as a character list so that the line split stays executable. -/
structure GitEnv where
  gitDirExists : Bool
  initCode : Nat
  statusCode : Nat
  statusStdout : List Char
  addCode : Nat
  commitCode : Nat

/-- Git subprocess launches, in order. -/
inductive GitAction where
  | initRepo
  | statusQ
  | addFiles
  | commit
  deriving DecidableEq, Repr

/-- JavaScript `String.prototype.split` with a one-character separator. -/
def splitOnChar (sep : Char) : List Char → List (List Char)
  | [] => [[]]
  | c :: rest =>
    match splitOnChar sep rest with
    | [] => [[c]]
    | s :: ss => if c = sep then [] :: s :: ss else (c :: s) :: ss

/-- `status.stdout.split("\n").filter(Boolean)` (lines 447-449); the empty
string is the only falsy line. -/
def statusLines (stdout : List Char) : List (List Char) :=
  (splitOnChar (Char.ofNat 10) stdout).filter (fun l => l ≠ [])

/-- `lines.some(line => files.some(file => line.includes(file)))`
(line 450). -/
def statusReportsChanged (stdout : List Char) (files : List (List Char)) : Bool :=
  (statusLines stdout).any (fun line => files.any (fun f => containsSub f line))

/-- `gitCommitIfChanged` (lines 441-465): run `git status --porcelain`; on
failure, or when no status line mentions one of the files, stop; otherwise
`git add` then `git commit` (skipping commit when add fails). -/
def gitCommitIfChanged (g : GitEnv) (files : List (List Char)) : List GitAction :=
  if g.statusCode ≠ 0 then [GitAction.statusQ]
  else if statusReportsChanged g.statusStdout files = false then [GitAction.statusQ]
  else if g.addCode ≠ 0 then [GitAction.statusQ, GitAction.addFiles]
  else [GitAction.statusQ, GitAction.addFiles, GitAction.commit]

/-- `ensureGitRepo` (lines 429-439): the workspace is ready when `.git`
exists; otherwise only when `autoInit` is set and `git init` succeeds. -/
def ensureGitRepo (g : GitEnv) (autoInit : Bool) : Bool × List GitAction :=
  if g.gitDirExists then (true, [])
  else if autoInit = false then (false, [])
  else if g.initCode = 0 then (true, [GitAction.initRepo])
  else (false, [GitAction.initRepo])

/-! ## Pull and push (`syncPull` lines 697-728, `syncPush` lines 730-758) -/

/-- File-system-visible steps of a sync operation.  `atomicWrite` is the
temp-file-plus-rename of `atomicCopy` (lines 686-695), `plainCopy` the bare
`fsp.copyFile` used by pull. -/
inductive SyncAction where
  | atomicWrite
  | plainCopy
  | git (a : GitAction)
  deriving DecidableEq, Repr

/-- The configuration fields consulted by pull / push;
`repoFileName` is `path.relative(repoRoot, repoConfigPath)`. -/
structure PushCfg where
  gitEnabled : Bool
  autoInit : Bool
  repoFileName : List Char

/-- The conditional commit sequence shared by pull and push (lines 715-727 /
745-757): when git is enabled, ensure the repository and, when it is ready,
run the commit-if-changed sequence on the managed file. -/
def gitPhase (cfg : PushCfg) (g : GitEnv) : List GitAction :=
  if cfg.gitEnabled then
    let er := ensureGitRepo g cfg.autoInit
    er.2 ++ (if er.1 then gitCommitIfChanged g [cfg.repoFileName] else [])
  else []

/-- `syncPush` (lines 730-758): validate the managed copy; on success
atomically replace the live file with it (net effect: live content becomes
the managed content), then run the git phase.  A validation error propagates
before `atomicCopy` runs, leaving the state untouched. -/
def syncPush (cfg : PushCfg) (v : Validator) (g : GitEnv) (st : SyncState) :
    Except SyncErr Unit × SyncState × List SyncAction :=
  match validateConfig v st with
  | Except.error e => (Except.error e, st, [])
  | Except.ok _ =>
    (Except.ok (), { st with liveContent := st.repoContent },
      SyncAction.atomicWrite :: (gitPhase cfg g).map SyncAction.git)

/-- `syncPull` (lines 697-728): require the live file to exist, copy it onto
the managed path, then run the same git phase. -/
def syncPull (cfg : PushCfg) (g : GitEnv) (st : SyncState) :
    Except SyncErr Unit × SyncState × List SyncAction :=
  match st.liveContent with
  | none => (Except.error SyncErr.liveMissing, st, [])
  | some content =>
    (Except.ok (), { st with repoContent := some content },
      SyncAction.plainCopy :: (gitPhase cfg g).map SyncAction.git)

/-! ## Command templating (`formatCmd` lines 187-193, `buildCommand`
lines 195-231)

All string processing is carried out on character lists.
`replaceAllGo` is JavaScript's `String.prototype.replaceAll` with a string
pattern: a single left-to-right scan replacing non-overlapping occurrences.
The fuel argument makes the recursion structural; it is always called with
fuel equal to the length of the scanned list, which suffices because every
step consumes at least one character and one unit of fuel. -/

/-- Left-to-right scan of `replaceAll`: at each position, when `pat` is a
prefix, emit `rep` and resume after the matched occurrence, otherwise copy
one character.  (With `pat` nonempty the fuel branch is unreachable for
fuel ≥ length of the scanned list.) -/
def replaceAllGo (pat rep : List Char) : Nat → List Char → List Char
  | _, [] => []
  | 0, s => s
  | Nat.succ fuel, c :: rest =>
    if pat.isPrefixOf (c :: rest) then
      rep ++ replaceAllGo pat rep fuel (List.drop (pat.length - 1) rest)
    else
      c :: replaceAllGo pat rep fuel rest

/-- `s.replaceAll(pat, rep)` for a nonempty `pat` (every pattern built by
`formatCmd` is `\x7b` ++ name ++ `\x7d` and hence nonempty; the empty-pattern
guard only keeps the recursion total). -/
def replaceAllJs (s pat rep : List Char) : List Char :=
  if pat.isEmpty then s else replaceAllGo pat rep s.length s

/-- `formatCmd` (lines 187-193): fold over the variable entries in order,
replacing every occurrence of `\x7b` ++ name ++ `\x7d` by the value. -/
def formatCmd (template : List Char) (vars : List (List Char × List Char)) :
    List Char :=
  vars.foldl (fun out kv => replaceAllJs out ('{' :: (kv.1 ++ ['}'])) kv.2) template

/-- The persisted health cache record as read by `buildCommand`
(lines 210-218); each field may be absent. -/
structure HealthCache where
  agentId : Option (List Char)
  sessionId : Option (List Char)
  sessionKey : Option (List Char)

/-- The configuration fields `buildCommand` consults (lines 196-229). -/
structure CmdCfg where
  repoConfigPath : List Char
  liveConfigPath : List Char
  target : Option (List Char)
  fallbackAgentId : Option (List Char)

/-- The `baseVars` object of `buildCommand` (lines 219-229), in insertion
order; `??`-fallbacks become `Option.getD`, bottoming out at the empty
string. -/
def baseVars (cfg : CmdCfg) (cache : Option HealthCache) :
    List (List Char × List Char) :=
  [("repoConfig".data, cfg.repoConfigPath),
   ("liveConfig".data, cfg.liveConfigPath),
   ("target".data, cfg.target.getD []),
   ("agentId".data,
     (cache.bind HealthCache.agentId).getD (cfg.fallbackAgentId.getD [])),
   ("sessionId".data, (cache.bind HealthCache.sessionId).getD []),
   ("sessionKey".data, (cache.bind HealthCache.sessionKey).getD [])]

/-- JavaScript object spread `\x7b...base, ...extra\x7d` as an entry list:
base keys keep their position but take the overriding value when present in
`extra`; keys only in `extra` follow in order. -/
def mergeVars (base extra : List (List Char × List Char)) :
    List (List Char × List Char) :=
  base.map (fun kv =>
    (kv.1, ((extra.find? (fun e => e.1 == kv.1)).map Prod.snd).getD kv.2))
  ++ extra.filter (fun e => base.all (fun kv => kv.1 ≠ e.1))

/-- `buildCommand` (lines 195-231): format the template with the base
variables merged with the call-site extras. -/
def buildCommand (template : List Char) (cfg : CmdCfg)
    (cache : Option HealthCache) (extra : List (List Char × List Char)) :
    List Char :=
  formatCmd template (mergeVars (baseVars cfg cache) extra)

/-! ### Token grammar for templates

For the positive part of C7 a template is viewed as an alternation of
brace-free literal text and complete placeholders.  `renderToks` maps the
structured view back to the flat string the source operates on; the claim
theorems relate `formatCmd` on the flat string to substitution on the
structured view. -/

/-- A template fragment: literal text or a placeholder `\x7b` key `\x7d`. -/
inductive Tok where
  | lit (s : List Char)
  | ph (k : List Char)
  deriving DecidableEq, Repr

/-- Flatten a token list to the template string. -/
def renderToks : List Tok → List Char
  | [] => []
  | Tok.lit s :: ts => s ++ renderToks ts
  | Tok.ph k :: ts => '{' :: (k ++ ('}' :: renderToks ts))

/-- Substitute value `v` for every placeholder with key `k`. -/
def substTok (k v : List Char) : Tok → Tok
  | Tok.lit s => Tok.lit s
  | Tok.ph k2 => if k2 = k then Tok.lit v else Tok.ph k2

/-- Substitution over a whole token list. -/
def substToks (k v : List Char) (ts : List Tok) : List Tok :=
  ts.map (substTok k v)

/-- Substitution of every variable of an entry list, in order. -/
def substAll (vars : List (List Char × List Char)) (ts : List Tok) : List Tok :=
  vars.foldl (fun acc kv => substToks kv.1 kv.2 acc) ts

/-- No opening brace occurs in the fragment. -/
def noOpen (s : List Char) : Bool :=
  s.all (fun c => c ≠ '{')

/-- No brace of either kind occurs in the fragment. -/
def noBrace (s : List Char) : Bool :=
  s.all (fun c => c ≠ '{' && c ≠ '}')

/-- Well-formedness of one token: literals contain no opening brace, keys no
brace at all. -/
def tokWF : Tok → Bool
  | Tok.lit s => noOpen s
  | Tok.ph k => noBrace k

/-- Well-formedness of a token list. -/
def toksWF (ts : List Tok) : Bool :=
  ts.all tokWF

/-- Keys of the placeholders occurring in a token list. -/
def phKeys : List Tok → List (List Char)
  | [] => []
  | Tok.lit _ :: ts => phKeys ts
  | Tok.ph k :: ts => k :: phKeys ts

/-- A token list consisting of literals only. -/
def allLit (ts : List Tok) : Bool :=
  ts.all (fun t => match t with | Tok.lit _ => true | Tok.ph _ => false)

/-! # Theorems -/

/-! ## Interval-loop reentrancy (C8) -/

theorem loopStep_invariant (s : LoopState) (ev : LoopEvent)
    (h : s.active = if s.running then 1 else 0) :
    (loopStep s ev).active = if (loopStep s ev).running then 1 else 0 := by
  cases ev <;> unfold loopStep <;> by_cases hr : s.running = true <;>
    simp [hr] at h ⊢ <;> omega

theorem loopFold_invariant (evs : List LoopEvent) (s : LoopState)
    (h : s.active = if s.running then 1 else 0) :
    (evs.foldl loopStep s).active
      = if (evs.foldl loopStep s).running then 1 else 0 := by
  induction evs generalizing s with
  | nil => exact h
  | cons ev evs ih => exact ih (loopStep s ev) (loopStep_invariant s ev h)

theorem loopFold_accounting (evs : List LoopEvent) (s : LoopState) :
    (evs.foldl loopStep s).started + (evs.foldl loopStep s).skipped
      = s.started + s.skipped + evs.count LoopEvent.fire := by
  induction evs generalizing s with
  | nil => simp
  | cons ev evs ih =>
    rw [List.foldl_cons, ih (loopStep s ev)]
    cases ev <;> unfold loopStep <;> by_cases hr : s.running = true <;>
      simp [hr, List.count_cons] <;> omega

/-- C8: at most one heartbeat cycle is ever in progress at a time — in every
reachable state of `runHeartbeatLoop`'s guard automaton the number of
executing cycles is at most one (it is one exactly when the `running` guard
is set), and every timer fire is accounted for as either a started cycle or
a permanently skipped tick (the state carries no queue, so a skipped tick is
never run later). -/
theorem c8_reentrancy_guard (evs : List LoopEvent) :
    (loopRun evs).active ≤ 1
  ∧ ((loopRun evs).active = if (loopRun evs).running then 1 else 0)
  ∧ (loopRun evs).started + (loopRun evs).skipped = countFires evs := by
  have hinv := loopFold_invariant evs loopInit (by simp [loopInit])
  have hacc := loopFold_accounting evs loopInit
  refine ⟨?_, hinv, ?_⟩
  · rw [loopRun, hinv]; split <;> omega
  · rw [loopRun, countFires, hacc]; simp [loopInit]

/-! ## Error propagation in long-running modes (C9)

The claim says every fatal error inside a cycle or tick of the long-running
modes is caught so the process survives.  The watch path honours this: the
debounced push callback catches and logs.  The heartbeat path does not:
`runHeartbeatLoop`'s tick wraps the cycle in `try`/`finally` with no catch,
so the rejection propagates — the first (awaited) tick's error reaches
`main().catch`, which exits the process with code 1, and later interval
ticks turn it into an unhandled promise rejection.  The code contradicts the
spec's own propagation policy, which the spec itself flags as an unguarded
path. -/

/-- C9 evaluated at a failing cycle: the heartbeat tick re-raises the cycle
error (only resetting the guard), and a rejected `main` exits with code 1,
terminating the process; by contrast the watch callback swallows the same
error and resolves, and an error-free `main` exits 0. -/
theorem c9_heartbeat_error_escapes :
    (runHeartbeatTick (Except.error "cycle failure")).1
        = Except.error "cycle failure"
  ∧ (runHeartbeatTick (Except.error "cycle failure")).2 = false
  ∧ mainExitCode (Except.error "cycle failure") = 1
  ∧ watchPushHandler (Except.error "cycle failure") = Except.ok ()
  ∧ mainExitCode (Except.ok ()) = 0 :=
  ⟨rfl, rfl, rfl, rfl, rfl⟩

/-! ## Heartbeat per-attempt semantics (C3) -/

/-- C3: per attempt, the probe command runs exactly when the check exited 0,
the agent probe is enabled and a probe command is configured; the attempt is
healthy iff the check succeeded and, whenever the probe applies (enabled and
configured), the probe also exited 0; and when the probe is enabled without
a configured command, a successful check alone is healthy, with the
configuration warning in the trace. -/
theorem c3_probe_gating (hb : HeartbeatCfg) (env : HbEnv) (i : Nat) :
    ((HbEvent.probeExec ∈ (checkStep hb env i).2) ↔
      (env.checkCode i = 0 ∧ probeEnabled hb = true ∧ (probeCommand hb).isSome = true))
  ∧ ((checkStep hb env i).1 = true ↔
      (env.checkCode i = 0 ∧
        (probeEnabled hb = true → (probeCommand hb).isSome = true →
          env.probeCode i = 0)))
  ∧ (probeEnabled hb = true → probeCommand hb = none → env.checkCode i = 0 →
      (checkStep hb env i).1 = true
      ∧ HbEvent.warnProbeNoCmd ∈ (checkStep hb env i).2) := by
  unfold checkStep
  by_cases h1 : env.checkCode i = 0
  · by_cases h2 : probeEnabled hb = false
    · simp [h1, h2]
    · rcases hpc : probeCommand hb with _ | c
      · simp [h1, h2, hpc]
      · simp [h1, h2, hpc]
  · simp [h1]

/-! ## Heartbeat cycle with no check command (C10) -/

/-- C10: with no check command configured, a heartbeat cycle only logs the
warning — it executes no send, check, probe, restart or notify command and
consumes no wait-sequence entry, regardless of the rest of the
configuration. -/
theorem c10_no_check_no_work (hb : HeartbeatCfg) (env : HbEnv)
    (h : hb.checkCommand = none) :
    runHeartbeatOnce hb env = [HbEvent.warnNoCheck]
  ∧ countE HbEvent.sendExec (runHeartbeatOnce hb env) = 0
  ∧ countE HbEvent.checkExec (runHeartbeatOnce hb env) = 0
  ∧ countE HbEvent.probeExec (runHeartbeatOnce hb env) = 0
  ∧ countE HbEvent.restartExec (runHeartbeatOnce hb env) = 0
  ∧ countE HbEvent.notifyExec (runHeartbeatOnce hb env) = 0
  ∧ (runHeartbeatOnce hb env).filter isSleepEvent = [] := by
  have he : runHeartbeatOnce hb env = [HbEvent.warnNoCheck] := by
    unfold runHeartbeatOnce; rw [h]
  refine ⟨he, ?_, ?_, ?_, ?_, ?_, ?_⟩ <;> rw [he] <;> rfl

/-- C10 witness: a configuration with a send command but no check command
performs nothing but the warning. -/
theorem c10_no_check_no_work_witness :
    runHeartbeatOnce
      { sendCommand := some "send", checkCommand := none, agentProbe := none,
        notifyOnRestart := true, notifyCommand := some "notify",
        restartCommand := none, waitSeconds := none }
      { checkCode := fun _ => 0, probeCode := fun _ => 0,
        sendCode := fun _ => 0, restartCode := 0, notifyCode := 0 }
      = [HbEvent.warnNoCheck] :=
  (c10_no_check_no_work _ _ rfl).1

/-! ## Heartbeat retry-loop accounting (towards C1 and C2) -/

theorem countE_append (e : HbEvent) (a b : List HbEvent) :
    countE e (a ++ b) = countE e a + countE e b := by
  simp [countE, List.count_append]

theorem countE_cons (e x : HbEvent) (t : List HbEvent) :
    countE e (x :: t) = countE e t + (if x = e then 1 else 0) := by
  simp [countE, List.count_cons]

theorem countE_nil (e : HbEvent) : countE e [] = 0 := rfl

theorem sendStep_counts (env : HbEnv) (j : Nat) :
    countE HbEvent.checkExec (sendStep env j) = 0
  ∧ countE HbEvent.restartExec (sendStep env j) = 0
  ∧ countE HbEvent.notifyExec (sendStep env j) = 0
  ∧ countE HbEvent.sendExec (sendStep env j) = 1
  ∧ (sendStep env j).filter isSleepEvent = [] := by
  unfold sendStep; split <;> decide

theorem checkStep_counts (hb : HeartbeatCfg) (env : HbEnv) (i : Nat) :
    countE HbEvent.checkExec (checkStep hb env i).2 = 1
  ∧ countE HbEvent.sendExec (checkStep hb env i).2 = 0
  ∧ countE HbEvent.restartExec (checkStep hb env i).2 = 0
  ∧ countE HbEvent.notifyExec (checkStep hb env i).2 = 0
  ∧ (checkStep hb env i).2.filter isSleepEvent = [] := by
  unfold checkStep
  by_cases h1 : env.checkCode i = 0 <;>
    by_cases h2 : probeEnabled hb = false <;>
    rcases hpc : probeCommand hb with _ | c <;>
    simp [h1, h2, hpc] <;> decide

/-- Unfolding equation for one step of the retry loop. -/
theorem hbLoop_cons (hb : HeartbeatCfg) (env : HbEnv) (i w : Nat)
    (rest : List Nat) :
    hbLoop hb env i (w :: rest)
      = if (checkStep hb env i).1 then
          (some i,
            HbEvent.sleepWait w :: (checkStep hb env i).2 ++ [HbEvent.infoHealthy])
        else
          ((hbLoop hb env (i + 1) rest).1,
            HbEvent.sleepWait w :: (checkStep hb env i).2 ++
              (if rest.isEmpty then []
               else if hb.sendCommand.isSome then sendStep env (i + 1) else []) ++
              (hbLoop hb env (i + 1) rest).2) := by
  rfl

/-- A perpetually failing stretch of attempts: the loop exhausts the whole
wait sequence, performing one check per entry, one resend per non-final
entry, and launching neither restart nor notify. -/
theorem hbLoop_allFail (hb : HeartbeatCfg) (env : HbEnv) :
    ∀ (l : List Nat) (i : Nat),
    (∀ j, j < l.length → attemptHealthy hb env (i + j) = false) →
    (hbLoop hb env i l).1 = none
  ∧ countE HbEvent.checkExec (hbLoop hb env i l).2 = l.length
  ∧ countE HbEvent.restartExec (hbLoop hb env i l).2 = 0
  ∧ countE HbEvent.notifyExec (hbLoop hb env i l).2 = 0
  ∧ countE HbEvent.sendExec (hbLoop hb env i l).2
      = (if hb.sendCommand.isSome then l.length - 1 else 0)
  ∧ (hbLoop hb env i l).2.filter isSleepEvent = l.map HbEvent.sleepWait := by
  intro l
  induction l with
  | nil => intro i _; refine ⟨rfl, rfl, rfl, rfl, ?_, rfl⟩; split <;> rfl
  | cons w rest ih =>
    intro i h
    have h0 : (checkStep hb env i).1 = false := by
      have := h 0 (by simp)
      rwa [Nat.add_zero] at this
    have hshift : ∀ j, j < rest.length → attemptHealthy hb env (i + 1 + j) = false := by
      intro j hj
      have := h (j + 1) (by simpa using Nat.succ_lt_succ hj)
      rwa [show i + (j + 1) = i + 1 + j by omega] at this
    obtain ⟨hr1, hr2, hr3, hr4, hr5, hr6⟩ := ih (i + 1) hshift
    obtain ⟨hc1, hc2, hc3, hc4, hc5⟩ := checkStep_counts hb env i
    obtain ⟨hs1, hs2, hs3, hs4, hs5⟩ := sendStep_counts env (i + 1)
    rw [hbLoop_cons, h0]
    by_cases hs : hb.sendCommand.isSome = true <;>
      rcases rest with _ | ⟨r, rs⟩ <;>
      refine ⟨hr1, ?_, ?_, ?_, ?_, ?_⟩ <;>
      simp [hs, countE_cons, countE_append, List.filter_append, List.filter_cons,
        isSleepEvent, hc1, hc2, hc3, hc4, hc5, hr2, hr3, hr4, hr5, hr6,
        hs1, hs2, hs3, hs4, hs5] <;>
      omega

/-- A cycle whose attempt `m` is the first healthy one: the loop stops at
attempt `m`, having consumed exactly the first `m + 1` wait entries, run
`m + 1` checks and `m` resends, and launching neither restart nor notify. -/
theorem hbLoop_healthyAt (hb : HeartbeatCfg) (env : HbEnv) :
    ∀ (l : List Nat) (i m : Nat),
    m < l.length →
    (∀ j, j < m → attemptHealthy hb env (i + j) = false) →
    attemptHealthy hb env (i + m) = true →
    (hbLoop hb env i l).1 = some (i + m)
  ∧ countE HbEvent.checkExec (hbLoop hb env i l).2 = m + 1
  ∧ countE HbEvent.restartExec (hbLoop hb env i l).2 = 0
  ∧ countE HbEvent.notifyExec (hbLoop hb env i l).2 = 0
  ∧ countE HbEvent.sendExec (hbLoop hb env i l).2
      = (if hb.sendCommand.isSome then m else 0)
  ∧ (hbLoop hb env i l).2.filter isSleepEvent
      = (l.take (m + 1)).map HbEvent.sleepWait := by
  intro l
  induction l with
  | nil => intro i m hm; exact absurd hm (by simp)
  | cons w rest ih =>
    intro i m hm hfail hok
    obtain ⟨hc1, hc2, hc3, hc4, hc5⟩ := checkStep_counts hb env i
    obtain ⟨hs1, hs2, hs3, hs4, hs5⟩ := sendStep_counts env (i + 1)
    rcases m with _ | m2
    · have h0 : (checkStep hb env i).1 = true := by
        have := hok; rwa [Nat.add_zero] at this
      rw [hbLoop_cons, h0]
      refine ⟨?_, ?_, ?_, ?_, ?_, ?_⟩ <;>
        simp [countE_cons, countE_append, countE_nil, List.filter_append,
          List.filter_cons, isSleepEvent, hc1, hc2, hc3, hc4, hc5]
    · have h0 : (checkStep hb env i).1 = false := by
        have := hfail 0 (by omega); rwa [Nat.add_zero] at this
      have hm2 : m2 < rest.length := by simpa using Nat.lt_of_succ_lt_succ hm
      have hshift : ∀ j, j < m2 → attemptHealthy hb env (i + 1 + j) = false := by
        intro j hj
        have := hfail (j + 1) (by omega)
        rwa [show i + (j + 1) = i + 1 + j by omega] at this
      have hok2 : attemptHealthy hb env (i + 1 + m2) = true := by
        rwa [show i + (m2 + 1) = i + 1 + m2 by omega] at hok
      obtain ⟨hr1, hr2, hr3, hr4, hr5, hr6⟩ := ih (i + 1) m2 hm2 hshift hok2
      have hne : rest ≠ [] := by
        intro hnil; rw [hnil] at hm2; exact absurd hm2 (by simp)
      have hr1a : (hbLoop hb env (i + 1) rest).1 = some (i + (m2 + 1)) := by
        rw [hr1]; congr 1; omega
      rw [hbLoop_cons, h0]
      by_cases hs : hb.sendCommand.isSome = true <;>
        rcases rest with _ | ⟨r, rs⟩ <;>
        first
        | exact absurd rfl hne
        | (refine ⟨hr1a, ?_, ?_, ?_, ?_, ?_⟩ <;>
            simp [hs, countE_cons, countE_append, countE_nil,
              List.filter_append, List.filter_cons, isSleepEvent,
              hc1, hc2, hc3, hc4, hc5, hr2, hr3, hr4, hr5, hr6,
              hs1, hs2, hs3, hs4, hs5] <;>
            omega)

theorem countE_ite (e : HbEvent) (P : Prop) [Decidable P]
    (A B : List HbEvent) :
    countE e (if P then A else B) = if P then countE e A else countE e B :=
  apply_ite (countE e) P A B

/-- Shape of a full cycle whose retry loop exhausted the wait sequence. -/
theorem runHeartbeatOnce_exhausted (hb : HeartbeatCfg) (env : HbEnv)
    (c : String) (hc : hb.checkCommand = some c)
    (hl : (hbLoop hb env 0 (waitSecondsOf hb)).1 = none) :
    runHeartbeatOnce hb env
      = (if hb.sendCommand.isSome then sendStep env 0 else []) ++
        (hbLoop hb env 0 (waitSecondsOf hb)).2 ++
        [HbEvent.warnExhausted, HbEvent.restartExec] ++
        (if env.restartCode ≠ 0 then [HbEvent.warnRestartFailed] else []) ++
        (if hb.notifyOnRestart && hb.notifyCommand.isSome then
          HbEvent.notifyExec ::
            (if env.notifyCode ≠ 0 then [HbEvent.warnNotifyFailed] else [])
        else []) := by
  unfold runHeartbeatOnce
  rw [hc]
  simp only [hl]

/-- Shape of a full cycle whose retry loop stopped healthy. -/
theorem runHeartbeatOnce_healthy (hb : HeartbeatCfg) (env : HbEnv)
    (c : String) (k : Nat) (hc : hb.checkCommand = some c)
    (hl : (hbLoop hb env 0 (waitSecondsOf hb)).1 = some k) :
    runHeartbeatOnce hb env
      = (if hb.sendCommand.isSome then sendStep env 0 else []) ++
        (hbLoop hb env 0 (waitSecondsOf hb)).2 := by
  unfold runHeartbeatOnce
  rw [hc]
  simp only [hl]

/-! ## C1: exhaustion restarts once, then notifies once -/

/-- C1: with a check command configured and a wait sequence of length
`N ≥ 1`, a cycle in which every attempt is unhealthy (check fails, or the
probe fails whenever it applies — `attemptHealthy` is false) performs
exactly `N` check invocations, then executes the restart command exactly
once; and the notify command runs exactly once — after the restart, i.e. in
the trace suffix following the single restart event — precisely when
`notifyOnRestart` is set and a notify command is configured, regardless of
the restart command's exit code (`env.restartCode` is universally
quantified). -/
theorem c1_exhaustion_restart_notify (hb : HeartbeatCfg) (env : HbEnv)
    (c : String) (hc : hb.checkCommand = some c)
    (_hn : 1 ≤ (waitSecondsOf hb).length)
    (hfail : ∀ j, j < (waitSecondsOf hb).length → attemptHealthy hb env j = false) :
    countE HbEvent.checkExec (runHeartbeatOnce hb env) = (waitSecondsOf hb).length
  ∧ countE HbEvent.restartExec (runHeartbeatOnce hb env) = 1
  ∧ countE HbEvent.notifyExec (runHeartbeatOnce hb env)
      = (if hb.notifyOnRestart && hb.notifyCommand.isSome then 1 else 0)
  ∧ ∃ pre post, runHeartbeatOnce hb env = pre ++ HbEvent.restartExec :: post
      ∧ countE HbEvent.restartExec pre = 0
      ∧ countE HbEvent.restartExec post = 0
      ∧ countE HbEvent.notifyExec pre = 0
      ∧ countE HbEvent.notifyExec post
          = (if hb.notifyOnRestart && hb.notifyCommand.isSome then 1 else 0) := by
  have hfail0 : ∀ j, j < (waitSecondsOf hb).length →
      attemptHealthy hb env (0 + j) = false := by
    intro j hj; rw [Nat.zero_add]; exact hfail j hj
  obtain ⟨hl1, hl2, hl3, hl4, hl5, hl6⟩ :=
    hbLoop_allFail hb env (waitSecondsOf hb) 0 hfail0
  have heq := runHeartbeatOnce_exhausted hb env c hc hl1
  obtain ⟨hs1, hs2, hs3, hs4, hs5⟩ := sendStep_counts env 0
  have hpre : runHeartbeatOnce hb env
      = ((if hb.sendCommand.isSome then sendStep env 0 else []) ++
          (hbLoop hb env 0 (waitSecondsOf hb)).2 ++ [HbEvent.warnExhausted]) ++
        HbEvent.restartExec ::
          ((if env.restartCode ≠ 0 then [HbEvent.warnRestartFailed] else []) ++
            (if hb.notifyOnRestart && hb.notifyCommand.isSome then
              HbEvent.notifyExec ::
                (if env.notifyCode ≠ 0 then [HbEvent.warnNotifyFailed] else [])
            else [])) := by
    rw [heq]; simp [List.append_assoc]
  refine ⟨?_, ?_, ?_, _, _, hpre, ?_, ?_, ?_, ?_⟩ <;>
    simp [heq, countE_append, countE_cons, countE_nil, countE_ite,
      hl2, hl3, hl4, hs1, hs2, hs3]

/-- C1 witness: default wait sequence (length 3), every check failing,
notify enabled and configured, restart command itself failing — three
checks, one restart, one notify after it. -/
theorem c1_exhaustion_restart_notify_witness :
    countE HbEvent.checkExec
      (runHeartbeatOnce
        { sendCommand := none, checkCommand := some "check", agentProbe := none,
          notifyOnRestart := true, notifyCommand := some "notify",
          restartCommand := none, waitSeconds := none }
        { checkCode := fun _ => 1, probeCode := fun _ => 0,
          sendCode := fun _ => 0, restartCode := 7, notifyCode := 0 }) = 3 :=
  (c1_exhaustion_restart_notify
    { sendCommand := none, checkCommand := some "check", agentProbe := none,
      notifyOnRestart := true, notifyCommand := some "notify",
      restartCommand := none, waitSeconds := none }
    { checkCode := fun _ => 1, probeCode := fun _ => 0,
      sendCode := fun _ => 0, restartCode := 7, notifyCode := 0 }
    "check" rfl (by decide) (by decide)).1

/-! ## C2: first healthy attempt ends the cycle -/

/-- C2: when attempt `m` is reached (all earlier attempts unhealthy) and is
healthy, the cycle ends at attempt `m`: exactly `m + 1` checks and
`m + 1` sleeps (the first `m + 1` wait entries, in order) are performed,
the send command runs `m + 1` times when configured (initial send plus `m`
resends) and never otherwise, and neither the restart nor the notify
command is executed. -/
theorem c2_healthy_ends_cycle (hb : HeartbeatCfg) (env : HbEnv)
    (c : String) (m : Nat) (hc : hb.checkCommand = some c)
    (hm : m < (waitSecondsOf hb).length)
    (hfail : ∀ j, j < m → attemptHealthy hb env j = false)
    (hok : attemptHealthy hb env m = true) :
    countE HbEvent.checkExec (runHeartbeatOnce hb env) = m + 1
  ∧ countE HbEvent.sendExec (runHeartbeatOnce hb env)
      = (if hb.sendCommand.isSome then m + 1 else 0)
  ∧ countE HbEvent.restartExec (runHeartbeatOnce hb env) = 0
  ∧ countE HbEvent.notifyExec (runHeartbeatOnce hb env) = 0
  ∧ (runHeartbeatOnce hb env).filter isSleepEvent
      = ((waitSecondsOf hb).take (m + 1)).map HbEvent.sleepWait := by
  have hfail0 : ∀ j, j < m → attemptHealthy hb env (0 + j) = false := by
    intro j hj; rw [Nat.zero_add]; exact hfail j hj
  have hok0 : attemptHealthy hb env (0 + m) = true := by
    rw [Nat.zero_add]; exact hok
  obtain ⟨hl1, hl2, hl3, hl4, hl5, hl6⟩ :=
    hbLoop_healthyAt hb env (waitSecondsOf hb) 0 m hm hfail0 hok0
  have heq := runHeartbeatOnce_healthy hb env c (0 + m) hc hl1
  obtain ⟨hs1, hs2, hs3, hs4, hs5⟩ := sendStep_counts env 0
  have hfilter : (runHeartbeatOnce hb env).filter isSleepEvent
      = ((waitSecondsOf hb).take (m + 1)).map HbEvent.sleepWait := by
    rw [heq, List.filter_append, hl6]
    by_cases hsend : hb.sendCommand.isSome = true <;> simp [hsend, hs5]
  refine ⟨?_, ?_, ?_, ?_, hfilter⟩ <;>
    simp [heq, countE_append, countE_cons, countE_nil, countE_ite,
      hl2, hl3, hl4, hl5, hs1, hs2, hs3, hs4] <;>
    split_ifs <;> omega

/-- C2 witness: probe enabled and succeeding, check healthy on the second
attempt of the default schedule — two checks, two sends, two sleeps, no
restart, no notify. -/
theorem c2_healthy_ends_cycle_witness :
    countE HbEvent.checkExec
      (runHeartbeatOnce
        { sendCommand := some "send", checkCommand := some "check",
          agentProbe := some { enabled := true, command := some "probe" },
          notifyOnRestart := true, notifyCommand := some "notify",
          restartCommand := none, waitSeconds := none }
        { checkCode := fun i => if i = 1 then 0 else 1,
          probeCode := fun _ => 0, sendCode := fun _ => 0,
          restartCode := 0, notifyCode := 0 }) = 2 :=
  (c2_healthy_ends_cycle
    { sendCommand := some "send", checkCommand := some "check",
      agentProbe := some { enabled := true, command := some "probe" },
      notifyOnRestart := true, notifyCommand := some "notify",
      restartCommand := none, waitSeconds := none }
    { checkCode := fun i => if i = 1 then 0 else 1,
      probeCode := fun _ => 0, sendCode := fun _ => 0,
      restartCode := 0, notifyCode := 0 }
    "check" 1 rfl (by decide) (by decide) (by decide)).1

/-! ## C4: push on a schema-invalid config leaves the live file untouched -/

/-- C4: when the managed copy parses but violates the schema, `syncPush`
fails with the aggregated schema error, performs no file-system or git
action at all — in particular the atomic-copy step never runs — and returns
the state unchanged, so the live file's content is exactly what it was. -/
theorem c4_push_invalid_schema_leaves_live (cfg : PushCfg) (v : Validator)
    (g : GitEnv) (st : SyncState) (raw doc sch : String)
    (h1 : st.repoContent = some raw)
    (h2 : v.parse raw = Except.ok doc)
    (h3 : st.schemaContent = some sch)
    (h4 : v.ajvErrors sch doc ≠ []) :
    (syncPush cfg v g st).1
        = Except.error
            (SyncErr.schemaFailed ((v.ajvErrors sch doc).map formatAjvError))
  ∧ (syncPush cfg v g st).2.1 = st
  ∧ (syncPush cfg v g st).2.1.liveContent = st.liveContent
  ∧ (syncPush cfg v g st).2.2 = []
  ∧ SyncAction.atomicWrite ∉ (syncPush cfg v g st).2.2 := by
  have hv : validateConfig v st
      = Except.error
          (SyncErr.schemaFailed ((v.ajvErrors sch doc).map formatAjvError)) := by
    unfold validateConfig
    simp only [h1, h2, h3]
  unfold syncPush
  rw [hv]
  exact ⟨rfl, rfl, rfl, rfl, by simp⟩

/-- C4 witness: a one-error validator run on a concrete state — push fails
with the aggregated error and the state is returned untouched. -/
theorem c4_push_invalid_schema_leaves_live_witness :
    (syncPush
      { gitEnabled := true, autoInit := true, repoFileName := "openclaw.json".data }
      { parse := fun s => Except.ok s,
        ajvErrors := fun _ _ =>
          [{ instancePath := "/port", schemaPath := "#/port", message := "must be number" }] }
      { gitDirExists := true, initCode := 0, statusCode := 0,
        statusStdout := [], addCode := 0, commitCode := 0 }
      { repoContent := some "managed", liveContent := some "live",
        schemaContent := some "schema" }).2.1.liveContent = some "live" :=
  (c4_push_invalid_schema_leaves_live _ _ _ _ "managed" "managed" "schema"
    rfl rfl rfl (by decide)).2.2.1

/-! ## C5: malformed-structure errors are distinct and come first; schema
errors are aggregated -/

theorem isPrefixOf_append_self (p r : List Char) :
    p.isPrefixOf (p ++ r) = true := by
  induction p with
  | nil => simp [List.isPrefixOf]
  | cons c p ih => simp [List.isPrefixOf, ih]

theorem containsSub_here (p r : List Char) : containsSub p (p ++ r) = true := by
  cases p with
  | nil => cases r <;> simp [containsSub, List.isPrefixOf]
  | cons c p => simp [containsSub, isPrefixOf_append_self]

theorem containsSub_append_left (l p r : List Char) :
    containsSub p (l ++ (p ++ r)) = true := by
  induction l with
  | nil => simpa using containsSub_here p r
  | cons c l ih => simp [containsSub, ih]

theorem containsSub_append_right_of (p a b : List Char)
    (h : containsSub p b = true) : containsSub p (a ++ b) = true := by
  induction a with
  | nil => simpa using h
  | cons c a ih => simp [containsSub, ih]

/-- C5: `validateConfig`'s failure taxonomy.  (a) When `JSON.parse` fails,
the result is the distinct `invalidJson` error — for every state of the
schema file (`st.schemaContent` is unconstrained, covering a missing or
arbitrary schema: no schema check happens first) — and that error differs
from every possible schema error.  (b) When the parse succeeds and the
validator reports violations, the failure carries one formatted entry per
reported error — all of them, not just the first — and each entry contains
the error's instance path (falling back to the schema path) and its message
(falling back to `invalid`) as substrings. -/
theorem c5_validate_error_taxonomy (v : Validator) (st : SyncState)
    (raw : String) (h1 : st.repoContent = some raw) :
    (∀ m, v.parse raw = Except.error m →
        validateConfig v st = Except.error (SyncErr.invalidJson m)
      ∧ ∀ d, SyncErr.invalidJson m ≠ SyncErr.schemaFailed d)
  ∧ (∀ doc sch, v.parse raw = Except.ok doc → st.schemaContent = some sch →
        v.ajvErrors sch doc ≠ [] →
        validateConfig v st
          = Except.error
              (SyncErr.schemaFailed ((v.ajvErrors sch doc).map formatAjvError))
      ∧ ((v.ajvErrors sch doc).map formatAjvError).length
          = (v.ajvErrors sch doc).length)
  ∧ (∀ e : AjvError, e.instancePath ≠ "" →
      strIncludes (formatAjvError e) e.instancePath = true)
  ∧ (∀ e : AjvError, e.instancePath = "" → e.schemaPath ≠ "" →
      strIncludes (formatAjvError e) e.schemaPath = true)
  ∧ (∀ e : AjvError, e.message ≠ "" →
      strIncludes (formatAjvError e) e.message = true) := by
  refine ⟨?_, ?_, ?_, ?_, ?_⟩
  · intro m hm
    constructor
    · unfold validateConfig
      simp only [h1, hm]
    · intro d hd
      exact SyncErr.noConfusion hd
  · intro doc sch hdoc hsch hne
    constructor
    · unfold validateConfig
      simp only [h1, hdoc, hsch]
    · exact List.length_map _ _
  · intro e hip
    unfold formatAjvError strIncludes
    rw [if_pos hip]
    simp only [String.data_append, List.append_assoc]
    exact containsSub_append_left _ _ _
  · intro e hip hsp
    unfold formatAjvError strIncludes
    rw [if_neg (by simp [hip]), if_pos hsp]
    simp only [String.data_append, List.append_assoc]
    exact containsSub_append_left _ _ _
  · intro e hm
    unfold formatAjvError strIncludes
    rw [if_pos hm]
    simp only [String.data_append, List.append_assoc]
    apply containsSub_append_right_of
    apply containsSub_append_right_of
    apply containsSub_append_right_of
    simpa using containsSub_here e.message.data []

/-- C5 witness: a concrete malformed parse yields the `invalidJson` error,
distinct from schema failures, with the schema file absent. -/
theorem c5_validate_error_taxonomy_witness :
    validateConfig
      { parse := fun _ => Except.error "Unexpected token",
        ajvErrors := fun _ _ => [] }
      { repoContent := some "not json", liveContent := some "live",
        schemaContent := none }
      = Except.error (SyncErr.invalidJson "Unexpected token") :=
  ((c5_validate_error_taxonomy _ _ "not json" rfl).1 "Unexpected token" rfl).1

/-! ## C6: a commit happens only when git reports the file as changed -/

theorem commit_mem_gitCommitIfChanged (g : GitEnv) (files : List (List Char)) :
    GitAction.commit ∈ gitCommitIfChanged g files ↔
      g.statusCode = 0 ∧ statusReportsChanged g.statusStdout files = true
      ∧ g.addCode = 0 := by
  unfold gitCommitIfChanged
  by_cases h1 : g.statusCode = 0 <;>
    by_cases h2 : statusReportsChanged g.statusStdout files = true <;>
    by_cases h3 : g.addCode = 0 <;>
    simp [h1, h2, h3]

theorem ensureGitRepo_no_commit (g : GitEnv) (a : Bool) :
    GitAction.commit ∉ (ensureGitRepo g a).2 := by
  unfold ensureGitRepo
  split_ifs <;> simp

theorem commit_mem_gitPhase (cfg : PushCfg) (g : GitEnv) :
    GitAction.commit ∈ gitPhase cfg g ↔
      cfg.gitEnabled = true ∧ (ensureGitRepo g cfg.autoInit).1 = true
      ∧ g.statusCode = 0
      ∧ statusReportsChanged g.statusStdout [cfg.repoFileName] = true
      ∧ g.addCode = 0 := by
  unfold gitPhase
  by_cases hg : cfg.gitEnabled = true
  · by_cases hr : (ensureGitRepo g cfg.autoInit).1 = true <;>
      simp [hg, hr, List.mem_append, ensureGitRepo_no_commit,
        commit_mem_gitCommitIfChanged]
  · simp [hg]

/-- C6: for push and pull with version control enabled, on a valid config
(resp. an existing live file) a `git commit` appears in the action trace only
when a `git status --porcelain` line mentions the managed file; when the
repository reports no change — as for content byte-identical to the last
commit — the operation still succeeds and performs its write step, but no
commit action occurs. -/
theorem c6_commit_only_when_changed (cfg : PushCfg) (v : Validator)
    (g : GitEnv) (st : SyncState) (raw doc sch lc : String)
    (_hgit : cfg.gitEnabled = true)
    (h1 : st.repoContent = some raw)
    (h2 : v.parse raw = Except.ok doc)
    (h3 : st.schemaContent = some sch)
    (h4 : v.ajvErrors sch doc = [])
    (h5 : st.liveContent = some lc) :
    (SyncAction.git GitAction.commit ∈ (syncPush cfg v g st).2.2 →
      statusReportsChanged g.statusStdout [cfg.repoFileName] = true)
  ∧ (statusReportsChanged g.statusStdout [cfg.repoFileName] = false →
      (syncPush cfg v g st).1 = Except.ok ()
      ∧ (syncPush cfg v g st).2.1.liveContent = st.repoContent
      ∧ SyncAction.atomicWrite ∈ (syncPush cfg v g st).2.2
      ∧ SyncAction.git GitAction.commit ∉ (syncPush cfg v g st).2.2)
  ∧ (SyncAction.git GitAction.commit ∈ (syncPull cfg g st).2.2 →
      statusReportsChanged g.statusStdout [cfg.repoFileName] = true)
  ∧ (statusReportsChanged g.statusStdout [cfg.repoFileName] = false →
      (syncPull cfg g st).1 = Except.ok ()
      ∧ SyncAction.git GitAction.commit ∉ (syncPull cfg g st).2.2) := by
  have hv : validateConfig v st = Except.ok () := by
    unfold validateConfig
    simp only [h1, h2, h3, h4]
  have hpush : syncPush cfg v g st
      = (Except.ok (), { st with liveContent := st.repoContent },
          SyncAction.atomicWrite :: (gitPhase cfg g).map SyncAction.git) := by
    unfold syncPush
    rw [hv]
  have hpull : syncPull cfg g st
      = (Except.ok (), { st with repoContent := some lc },
          SyncAction.plainCopy :: (gitPhase cfg g).map SyncAction.git) := by
    unfold syncPull
    rw [h5]
  refine ⟨?_, ?_, ?_, ?_⟩
  · intro hc
    rw [hpush] at hc
    have hg : GitAction.commit ∈ gitPhase cfg g := by simpa using hc
    exact ((commit_mem_gitPhase cfg g).1 hg).2.2.2.1
  · intro hch
    rw [hpush]
    refine ⟨rfl, rfl, by simp, ?_⟩
    simp [commit_mem_gitPhase, hch]
  · intro hc
    rw [hpull] at hc
    have hg : GitAction.commit ∈ gitPhase cfg g := by simpa using hc
    exact ((commit_mem_gitPhase cfg g).1 hg).2.2.2.1
  · intro hch
    rw [hpull]
    refine ⟨rfl, ?_⟩
    simp [commit_mem_gitPhase, hch]

/-- C6 witness: a clean `git status` (empty porcelain output) on a valid
config — the push succeeds yet its trace holds no commit action. -/
theorem c6_commit_only_when_changed_witness :
    SyncAction.git GitAction.commit ∉
      (syncPush
        { gitEnabled := true, autoInit := true,
          repoFileName := "openclaw.json".data }
        { parse := fun s => Except.ok s, ajvErrors := fun _ _ => [] }
        { gitDirExists := true, initCode := 0, statusCode := 0,
          statusStdout := [], addCode := 0, commitCode := 0 }
        { repoContent := some "managed", liveContent := some "live",
          schemaContent := some "schema" }).2.2 :=
  ((c6_commit_only_when_changed _ _ _ _ "managed" "managed" "schema" "live"
    rfl rfl rfl rfl rfl rfl).2.1 (by decide)).2.2.2

/-! ## C7: template substitution

`replaceAllGo` scanning lemmas: a brace-free stretch is copied verbatim, a
placeholder occurrence is replaced, and a placeholder with a different key
does not match (keys contain no closing brace). -/

theorem replaceAllGo_nil (pat rep : List Char) (fuel : Nat) :
    replaceAllGo pat rep fuel [] = [] := by
  cases fuel <;> rfl

theorem replaceAllGo_succ_cons (pat rep : List Char) (f : Nat) (c : Char)
    (rest : List Char) :
    replaceAllGo pat rep (f + 1) (c :: rest)
      = if pat.isPrefixOf (c :: rest) then
          rep ++ replaceAllGo pat rep f (List.drop (pat.length - 1) rest)
        else c :: replaceAllGo pat rep f rest := rfl

theorem replaceAllGo_skip (pat rep : List Char) (hpat : pat.head? = some '{') :
    ∀ (a : List Char) (rest : List Char) (fuel : Nat),
    (∀ c, c ∈ a → c ≠ '{') →
    a.length + rest.length ≤ fuel →
    replaceAllGo pat rep fuel (a ++ rest)
      = a ++ replaceAllGo pat rep (fuel - a.length) rest := by
  intro a
  induction a with
  | nil => intro rest fuel _ _; simp
  | cons c a ih =>
    intro rest fuel hmem hfuel
    rcases fuel with _ | f
    · simp at hfuel
    · have hc : c ≠ '{' := hmem c (by simp)
      have hpre : pat.isPrefixOf (c :: (a ++ rest)) = false := by
        rcases pat with _ | ⟨p, ps⟩
        · simp at hpat
        · have hp : p = '{' := by simpa using hpat
          simp [List.isPrefixOf, hp, Ne.symm hc]
      rw [List.cons_append, replaceAllGo_succ_cons, if_neg (by simp [hpre])]
      rw [ih rest f (fun d hd => hmem d (by simp [hd]))
        (by simp only [List.length_cons] at hfuel; omega)]
      have harith : f + 1 - (c :: a).length = f - a.length := by
        simp only [List.length_cons]
        omega
      rw [harith, List.cons_append]

theorem replaceAllGo_match (k rep rest : List Char) (f : Nat) :
    replaceAllGo ('{' :: (k ++ ['}'])) rep (f + 1) ('{' :: (k ++ ('}' :: rest)))
      = rep ++ replaceAllGo ('{' :: (k ++ ['}'])) rep f rest := by
  have hshape : '{' :: (k ++ ('}' :: rest)) = ('{' :: (k ++ ['}'])) ++ rest := by
    simp
  have hpre : ('{' :: (k ++ ['}'])).isPrefixOf ('{' :: (k ++ ('}' :: rest)))
      = true := by
    rw [hshape]; exact isPrefixOf_append_self _ _
  rw [replaceAllGo_succ_cons, if_pos hpre]
  congr 1
  have hlen : ('{' :: (k ++ ['}'])).length - 1 = (k ++ ['}']).length := by simp
  rw [hlen, show k ++ ('}' :: rest) = (k ++ ['}']) ++ rest by simp]
  rw [List.drop_left]

theorem key_mismatch_not_prefixOf :
    ∀ (k k2 : List Char) (rest : List Char),
    '}' ∉ k → '}' ∉ k2 → k ≠ k2 →
    (k ++ ['}']).isPrefixOf (k2 ++ ('}' :: rest)) = false := by
  intro k
  induction k with
  | nil =>
    intro k2 rest _ hk2 hne
    rcases k2 with _ | ⟨b, k2t⟩
    · exact absurd rfl hne
    · have hb : b ≠ '}' := fun h => hk2 (by simp [h])
      simp [List.isPrefixOf, Ne.symm hb]
  | cons a kt ih =>
    intro k2 rest hk hk2 hne
    have ha : a ≠ '}' := fun h => hk (by simp [h])
    rcases k2 with _ | ⟨b, k2t⟩
    · simp [List.isPrefixOf, ha]
    · by_cases hab : a = b
      · have hne2 : kt ≠ k2t := by
          intro h; exact hne (by rw [hab, h])
        simp only [List.cons_append, List.isPrefixOf, List.append_eq]
        rw [ih k2t rest (fun h => hk (by simp [h]))
          (fun h => hk2 (by simp [h])) hne2]
        simp
      · simp [List.isPrefixOf, hab]

theorem noOpen_mem {s : List Char} (h : noOpen s = true) :
    ∀ c ∈ s, c ≠ '{' := by
  intro c hc
  have := List.all_eq_true.mp h c hc
  simpa using this

theorem noBrace_no_close {k : List Char} (h : noBrace k = true) : '}' ∉ k := by
  intro hm
  have := List.all_eq_true.mp h '}' hm
  simp at this

theorem noBrace_no_open {k : List Char} (h : noBrace k = true) :
    ∀ c ∈ k, c ≠ '{' := by
  intro c hc
  have := List.all_eq_true.mp h c hc
  simp at this
  exact this.1

/-- One `replaceAll` pass over a well-formed template replaces exactly the
placeholders carrying the processed key. -/
theorem replaceAllGo_render (k v : List Char) (hk : noBrace k = true)
    (_hv : noOpen v = true) :
    ∀ (ts : List Tok) (fuel : Nat), toksWF ts = true →
    (renderToks ts).length ≤ fuel →
    replaceAllGo ('{' :: (k ++ ['}'])) v fuel (renderToks ts)
      = renderToks (substToks k v ts) := by
  have hkc : '}' ∉ k := noBrace_no_close hk
  intro ts
  induction ts with
  | nil => intro fuel _ _; simp [renderToks, substToks, replaceAllGo_nil]
  | cons t ts ih =>
    intro fuel hwf hfuel
    have hwf' := hwf
    rw [toksWF, List.all_cons, Bool.and_eq_true] at hwf'
    obtain ⟨hwft, hwf2⟩ := hwf'
    rcases t with s | k2
    · have hs := noOpen_mem (show noOpen s = true by simpa [tokWF] using hwft)
      rw [show renderToks (Tok.lit s :: ts) = s ++ renderToks ts from rfl]
      rw [replaceAllGo_skip ('{' :: (k ++ ['}'])) v rfl s (renderToks ts) fuel hs
        (by simp only [renderToks, List.length_append] at hfuel; omega)]
      rw [ih (fuel - s.length) hwf2
        (by simp only [renderToks, List.length_append] at hfuel; omega)]
      simp [substToks, substTok, renderToks]
    · by_cases hkk : k2 = k
      · subst hkk
        rcases fuel with _ | f
        · simp [renderToks] at hfuel
        · rw [show renderToks (Tok.ph k2 :: ts)
              = '{' :: (k2 ++ ('}' :: renderToks ts)) from rfl]
          rw [replaceAllGo_match k2 v (renderToks ts) f]
          rw [ih f hwf2 (by
            simp only [renderToks, List.length_cons, List.length_append] at hfuel
            omega)]
          simp [substToks, substTok, renderToks]
      · have hk2brace : noBrace k2 = true := by simpa [tokWF] using hwft
        have hk2c : '}' ∉ k2 := noBrace_no_close hk2brace
        have hk2o := noBrace_no_open hk2brace
        rcases fuel with _ | f
        · simp [renderToks] at hfuel
        · rw [show renderToks (Tok.ph k2 :: ts)
              = '{' :: (k2 ++ ('}' :: renderToks ts)) from rfl]
          rw [replaceAllGo_succ_cons]
          rw [if_neg (by
            simp only [List.isPrefixOf, Bool.and_eq_true, beq_iff_eq]
            rintro ⟨-, hp⟩
            rw [key_mismatch_not_prefixOf k k2 (renderToks ts) hkc hk2c
              (Ne.symm hkk)] at hp
            exact Bool.false_ne_true hp)]
          rw [show k2 ++ ('}' :: renderToks ts)
              = (k2 ++ ['}']) ++ renderToks ts by simp]
          have hrl : (renderToks (Tok.ph k2 :: ts)).length
              = k2.length + (renderToks ts).length + 2 := by
            simp only [renderToks, List.length_cons, List.length_append]
            omega
          rw [hrl] at hfuel
          rw [replaceAllGo_skip ('{' :: (k ++ ['}'])) v rfl (k2 ++ ['}'])
            (renderToks ts) f
            (by
              intro c hc
              rcases List.mem_append.mp hc with hc | hc
              · exact hk2o c hc
              · simp at hc
                rw [hc]
                decide)
            (by
              simp only [List.length_append, List.length_cons, List.length_nil]
              omega)]
          rw [ih (f - (k2 ++ ['}']).length) hwf2 (by
            simp only [List.length_append, List.length_cons, List.length_nil]
            omega)]
          simp [substToks, substTok, hkk, renderToks]

theorem substToks_wf (k v : List Char) (hv : noOpen v = true) (ts : List Tok)
    (hwf : toksWF ts = true) : toksWF (substToks k v ts) = true := by
  induction ts with
  | nil => rfl
  | cons t ts ih =>
    rw [toksWF, List.all_cons, Bool.and_eq_true] at hwf
    rw [substToks, List.map_cons, toksWF, List.all_cons, Bool.and_eq_true]
    refine ⟨?_, ih hwf.2⟩
    rcases t with s | k2
    · exact hwf.1
    · rw [substTok]
      split
      · simpa [tokWF] using hv
      · exact hwf.1

/-- `formatCmd` over a well-formed template equals substitution of every
variable, in order, on the token view. -/
theorem formatCmd_render :
    ∀ (vars : List (List Char × List Char)) (ts : List Tok),
    toksWF ts = true →
    (∀ kv ∈ vars, noBrace kv.1 = true ∧ noOpen kv.2 = true) →
    formatCmd (renderToks ts) vars = renderToks (substAll vars ts) := by
  intro vars
  induction vars with
  | nil => intro ts _ _; rfl
  | cons kv vars ih =>
    intro ts hwf hvars
    obtain ⟨hk, hv⟩ := hvars kv (by simp)
    have hstep : replaceAllJs (renderToks ts) ('{' :: (kv.1 ++ ['}'])) kv.2
        = renderToks (substToks kv.1 kv.2 ts) := by
      rw [replaceAllJs, if_neg (by simp)]
      exact replaceAllGo_render kv.1 kv.2 hk hv ts (renderToks ts).length hwf
        (Nat.le_refl _)
    show formatCmd (replaceAllJs (renderToks ts) ('{' :: (kv.1 ++ ['}'])) kv.2)
        vars = _
    rw [hstep]
    rw [ih (substToks kv.1 kv.2 ts) (substToks_wf kv.1 kv.2 hv ts hwf)
      (fun e he => hvars e (by simp [he]))]
    rfl

theorem phKeys_substToks (k v : List Char) (ts : List Tok) :
    phKeys (substToks k v ts) = (phKeys ts).filter (fun k2 => k2 ≠ k) := by
  induction ts with
  | nil => rfl
  | cons t ts ih =>
    rcases t with s | k2
    · simpa [substToks, substTok, phKeys] using ih
    · by_cases hkk : k2 = k <;>
        simp [substToks, substTok, phKeys, hkk, List.filter_cons] at ih ⊢ <;>
        simpa [substToks] using ih

theorem phKeys_substAll_nil (vars : List (List Char × List Char)) :
    ∀ (ts : List Tok),
    (∀ k2 ∈ phKeys ts, k2 ∈ vars.map Prod.fst) →
    phKeys (substAll vars ts) = [] := by
  induction vars with
  | nil =>
    intro ts hcov
    rcases hp : phKeys ts with _ | ⟨k2, ks⟩
    · exact hp
    · have := hcov k2 (by rw [hp]; simp)
      simp at this
  | cons kv vars ih =>
    intro ts hcov
    show phKeys (substAll vars (substToks kv.1 kv.2 ts)) = []
    refine ih (substToks kv.1 kv.2 ts) ?_
    intro k2 hk2
    rw [phKeys_substToks] at hk2
    obtain ⟨hmem, hne⟩ := List.mem_filter.mp hk2
    have := hcov k2 hmem
    simp only [List.map_cons, List.mem_cons] at this
    rcases this with h | h
    · exact absurd h (by simpa using hne)
    · exact h

theorem noOpen_append (a b : List Char) :
    noOpen (a ++ b) = (noOpen a && noOpen b) := by
  simp [noOpen, List.all_append]

theorem noOpen_renderToks (ts : List Tok) (hwf : toksWF ts = true)
    (hph : phKeys ts = []) : noOpen (renderToks ts) = true := by
  induction ts with
  | nil => rfl
  | cons t ts ih =>
    rw [toksWF, List.all_cons, Bool.and_eq_true] at hwf
    rcases t with s | k2
    · rw [show renderToks (Tok.lit s :: ts) = s ++ renderToks ts from rfl]
      rw [noOpen_append]
      have h1 : noOpen s = true := by simpa [tokWF] using hwf.1
      rw [h1, ih hwf.2 (by simpa [phKeys] using hph)]
      rfl
    · simp [phKeys] at hph

theorem mem_of_isPrefixOf :
    ∀ {l1 l2 : List Char} {c : Char},
    l1.isPrefixOf l2 = true → c ∈ l1 → c ∈ l2 := by
  intro l1
  induction l1 with
  | nil => intro l2 c _ hc; simp at hc
  | cons a l1 ih =>
    intro l2 c hp hc
    rcases l2 with _ | ⟨b, l2⟩
    · simp [List.isPrefixOf] at hp
    · simp only [List.isPrefixOf, Bool.and_eq_true, beq_iff_eq] at hp
      rcases List.mem_cons.mp hc with h | h
      · rw [h, hp.1]; simp
      · exact List.mem_cons_of_mem _ (ih hp.2 h)

theorem mem_of_containsSub :
    ∀ (p s : List Char) (c : Char), containsSub p s = true → c ∈ p → c ∈ s := by
  intro p s
  induction s with
  | nil =>
    intro c h hc
    rcases p with _ | ⟨a, p⟩
    · simp at hc
    · simp [containsSub] at h
  | cons d s ih =>
    intro c h hc
    rw [containsSub, Bool.or_eq_true] at h
    rcases h with h | h
    · exact mem_of_isPrefixOf h hc
    · exact List.mem_cons_of_mem _ (ih c h hc)

theorem substAll_wf (vars : List (List Char × List Char)) :
    ∀ ts, toksWF ts = true →
    (∀ kv ∈ vars, noOpen kv.2 = true) →
    toksWF (substAll vars ts) = true := by
  induction vars with
  | nil => intro ts hwf _; exact hwf
  | cons kv vars ih =>
    intro ts hwf hvars
    exact ih (substToks kv.1 kv.2 ts)
      (substToks_wf kv.1 kv.2 (hvars kv (by simp)) ts hwf)
      (fun e he => hvars e (by simp [he]))

/-- C7 (amended): for a template that alternates brace-free literal text with
recognized placeholders, `buildCommand` substitutes, for each variable of the
merged entry list in order, every occurrence of its placeholder by its value
(a variable with no value contributes the empty string via the `??`
fallbacks in `baseVars`); provided the substituted values are free of the
opening brace and every placeholder key of the template is among the
variables, no placeholder of any name remains in the executed command
string. -/
theorem c7_formatCmd_substitutes (ts : List Tok) (cfg : CmdCfg)
    (cache : Option HealthCache) (extra : List (List Char × List Char))
    (hwf : toksWF ts = true)
    (hvars : ∀ kv ∈ mergeVars (baseVars cfg cache) extra,
        noBrace kv.1 = true ∧ noOpen kv.2 = true)
    (hcov : ∀ k2 ∈ phKeys ts,
        k2 ∈ (mergeVars (baseVars cfg cache) extra).map Prod.fst) :
    buildCommand (renderToks ts) cfg cache extra
        = renderToks (substAll (mergeVars (baseVars cfg cache) extra) ts)
  ∧ ∀ nm : List Char,
      containsSub ('{' :: (nm ++ ['}']))
        (buildCommand (renderToks ts) cfg cache extra) = false := by
  have heq : buildCommand (renderToks ts) cfg cache extra
      = renderToks (substAll (mergeVars (baseVars cfg cache) extra) ts) :=
    formatCmd_render (mergeVars (baseVars cfg cache) extra) ts hwf hvars
  refine ⟨heq, ?_⟩
  intro nm
  have hopen : noOpen
      (renderToks (substAll (mergeVars (baseVars cfg cache) extra) ts))
      = true :=
    noOpen_renderToks _
      (substAll_wf _ ts hwf (fun kv hkv => (hvars kv hkv).2))
      (phKeys_substAll_nil _ ts hcov)
  rw [heq]
  by_contra hcon
  rw [Bool.not_eq_false] at hcon
  have hmem : '{' ∈ renderToks (substAll (mergeVars (baseVars cfg cache) extra) ts) :=
    mem_of_containsSub _ _ '{' hcon (by simp)
  exact noOpen_mem hopen '{' hmem rfl

/-- C7 witness of the amended claim: the template `echo \x7bsessionId\x7d`
with no health cache — `sessionId` has no value and is replaced by the empty
string, and the result carries no placeholder. -/
theorem c7_formatCmd_substitutes_witness :
    buildCommand
      (renderToks [Tok.lit ("echo ".data), Tok.ph ("sessionId".data)])
      { repoConfigPath := [], liveConfigPath := [], target := none,
        fallbackAgentId := none } none []
      = renderToks
          (substAll
            (mergeVars
              (baseVars
                { repoConfigPath := [], liveConfigPath := [], target := none,
                  fallbackAgentId := none } none) [])
            [Tok.lit ("echo ".data), Tok.ph ("sessionId".data)]) :=
  (c7_formatCmd_substitutes
    [Tok.lit ("echo ".data), Tok.ph ("sessionId".data)]
    { repoConfigPath := [], liveConfigPath := [], target := none,
      fallbackAgentId := none } none []
    (by decide) (by decide) (by decide)).1

/-- C7 counterexample to the claim as stated: the template
`\x7b\x7bsessionId\x7dsessionId\x7d` with no health cache.  `sessionId` is a
recognized variable whose value is missing (empty), its one placeholder
occurrence is replaced, yet the surrounding text re-forms the placeholder:
the executed command string is exactly the literal `\x7bsessionId\x7d`, so a
placeholder for a missing value does remain literal. -/
theorem c7_counterexample_placeholder_survives :
    buildCommand
      ('{' :: ('{' :: ("sessionId".data ++ ('}' :: ("sessionId".data ++ ['}'])))))
      { repoConfigPath := [], liveConfigPath := [], target := none,
        fallbackAgentId := none }
      none []
      = '{' :: ("sessionId".data ++ ['}'])
  ∧ ("sessionId".data, ([] : List Char))
      ∈ mergeVars
          (baseVars
            { repoConfigPath := [], liveConfigPath := [], target := none,
              fallbackAgentId := none } none) []
  ∧ containsSub ('{' :: ("sessionId".data ++ ['}']))
      (buildCommand
        ('{' :: ('{' :: ("sessionId".data ++ ('}' :: ("sessionId".data ++ ['}'])))))
        { repoConfigPath := [], liveConfigPath := [], target := none,
          fallbackAgentId := none }
        none []) = true :=
  ⟨by decide, by decide, by decide⟩

end Warden
